import Mathlib

/-!
Verification development for the text tokenization pipeline of the
coqui.ai TTS fork: `TTS/tts/utils/text/tokenizer.py` (class `TTSTokenizer`)
and `TTS/tts/utils/text/phonemizers/ko_kr_phonemizer.py`.

Modelling conventions:
* Text is modelled as `List Char`; a Python `str` and a Python list of
  single-character strings both become `List Char`, and `encode`'s
  `Union[str, List]` argument becomes the inductive `EncodeInput`, whose
  constructor records which branch of `isinstance(text, list)` is taken.
* The character set (`characters.py` is not part of the provided sources;
  modelled from the spec) has a `vocab` of symbols with ID = position;
  vocabulary symbols are single characters, as in the graphemes/phonemes
  character sets the tokenizer is built with.
* `char_to_id` / `id_to_char` return `Option` values: `none` models the
  exception Python raises on an unknown symbol / out-of-range ID, and a
  list comprehension over `char_to_id` becomes `idsOfSymbols`, which is
  `none` as soon as one element fails.
* `self.tokenizer = RegexpTokenizer("|".join(escaped vocab))`: for a
  vocabulary of single characters, `tokenize` (`re.findall` on an
  alternation of the vocabulary characters) returns exactly the input
  characters that lie in the vocabulary, in order (`regexpTokenize`);
  the `gaps=True` tokenizer (`re.split`, empty pieces discarded) returns
  the maximal runs of consecutive characters outside the vocabulary, each
  run as one string (`gapTokens`).
* The mutable `self.not_found_characters` list becomes explicit state
  passing: `encode` and `text_to_ids` return the result paired with the
  updated tokenizer.
-/

namespace CoquiTTS

/-- Modelled from the spec: the character set (`characters.py` is absent
from the sources). `vocab` is an ordered sequence of symbols whose position
is the symbol's ID; `pad`, `blank`, `bos`, `eos` are the reserved symbols. -/
structure CharacterSet where
  vocab : List Char
  pad : Char
  blank : Char
  bos : Char
  eos : Char

/-- Position of the first occurrence of `c` in the list, if any. -/
def indexInList : List Char → Char → Option Nat
  | [], _ => none
  | v :: rest, c => if v = c then some 0 else (indexInList rest c).map (· + 1)

/-- Modelled from the spec: `char_to_id(symbol)` returns the symbol's ID
(its position in `vocab`) and fails if the symbol is absent from `vocab`. -/
def CharacterSet.char_to_id (cs : CharacterSet) (c : Char) : Option Nat :=
  indexInList cs.vocab c

/-- Modelled from the spec: `id_to_char(id)` returns the symbol at position
`id` of `vocab` and fails if `id` is out of range. -/
def CharacterSet.id_to_char (cs : CharacterSet) (i : Nat) : Option Char :=
  cs.vocab[i]?

/-- `self.tokenizer.tokenize(text)`: `re.findall` on the alternation of the
(escaped) vocabulary characters keeps exactly the characters of `text` that
are in the vocabulary, in their original order. -/
def regexpTokenize (vocab : List Char) : List Char → List Char
  | [] => []
  | c :: rest =>
    if c ∈ vocab then c :: regexpTokenize vocab rest else regexpTokenize vocab rest

/-- Helper for `gapTokens`: scans the text keeping the current run of
out-of-vocabulary characters in `acc` (reversed), emitting the run whenever
a vocabulary character or the end of the text is reached. -/
def gapSplit (vocab : List Char) (acc : List Char) : List Char → List (List Char)
  | [] => if acc = [] then [] else [acc.reverse]
  | c :: rest =>
    if c ∈ vocab then
      if acc = [] then gapSplit vocab [] rest
      else acc.reverse :: gapSplit vocab [] rest
    else gapSplit vocab (c :: acc) rest

/-- `self.not_found_tokenizer.tokenize(text)` (same pattern, `gaps=True`):
`re.split` on the vocabulary alternation with empty pieces discarded, i.e.
the maximal runs of consecutive out-of-vocabulary characters, each run as
one string. -/
def gapTokens (vocab : List Char) (text : List Char) : List (List Char) :=
  gapSplit vocab [] text

/-- `log_not_found_characters`: appends each token that is not already
present to the accumulated `not_found_characters` list, in order. -/
def log_not_found_characters (nf : List (List Char)) :
    List (List Char) → List (List Char)
  | [] => nf
  | ch :: rest =>
    log_not_found_characters (if ch ∈ nf then nf else nf ++ [ch]) rest

/-- The tokenizer's configuration and state, as in `TTSTokenizer.__init__`.
The phonemizer is kept abstract as the function
`text ↦ phonemizer.phonemize(text, separator="")`. -/
structure TTSTokenizer where
  use_phonemes : Bool
  text_cleaner : Option (List Char → List Char)
  characters : CharacterSet
  phonemizer : List Char → List Char
  add_blank : Bool
  use_eos_bos : Bool
  not_found_characters : List (List Char)

/-- The argument of `encode`, of Python type `Union[str, List]`: `str` when
the pipeline passed the text through unmodified, `lst` when
`intersperse_blank_char` or `pad_with_bos_eos` turned it into a list. -/
inductive EncodeInput where
  | str : List Char → EncodeInput
  | lst : List Char → EncodeInput

/-- `[self.characters.char_to_id(char) for char in tokenized_text]`:
fails (Python raises) as soon as one symbol is not in the vocabulary. -/
def idsOfSymbols (cs : CharacterSet) : List Char → Option (List Nat)
  | [] => some []
  | c :: rest =>
    match cs.char_to_id c, idsOfSymbols cs rest with
    | some i, some is => some (i :: is)
    | _, _ => none

/-- `TTSTokenizer.encode`: on a string, tokenize into vocabulary symbols,
log the gap tokens into `not_found_characters`, and map `char_to_id`; on a
list, map `char_to_id` directly over the elements with no tokenization and
no logging. Returns the IDs together with the updated tokenizer state. -/
def TTSTokenizer.encode (tk : TTSTokenizer) :
    EncodeInput → Option (List Nat) × TTSTokenizer
  | .str text =>
    let tokenized_text := regexpTokenize tk.characters.vocab text
    let not_found := gapTokens tk.characters.vocab text
    (idsOfSymbols tk.characters tokenized_text,
      { tk with
        not_found_characters :=
          log_not_found_characters tk.not_found_characters not_found })
  | .lst text => (idsOfSymbols tk.characters text, tk)

/-- `TTSTokenizer.decode`: concatenates `id_to_char` over the IDs;
fails if an ID is out of range. -/
def TTSTokenizer.decode (tk : TTSTokenizer) : List Nat → Option (List Char)
  | [] => some []
  | i :: rest =>
    match tk.characters.id_to_char i, tk.decode rest with
    | some c, some cs => some (c :: cs)
    | _, _ => none

/-- `TTSTokenizer.ids_to_text`: exactly `decode`. -/
def TTSTokenizer.ids_to_text (tk : TTSTokenizer) (ids : List Nat) :
    Option (List Char) :=
  tk.decode ids

/-- `TTSTokenizer.pad_with_bos_eos`:
`[self.characters.bos] + list(char_sequence) + [self.characters.eos]`. -/
def TTSTokenizer.pad_with_bos_eos (tk : TTSTokenizer) (seq : List Char) :
    List Char :=
  [tk.characters.bos] ++ seq ++ [tk.characters.eos]

/-- The list `result = [ch] * (2 * n + 1); result[1::2] = seq` built by
`intersperse_blank_char`: `ch` at every even position, the elements of
`seq` at the odd positions. -/
def blankResult (ch : Char) : List Char → List Char
  | [] => [ch]
  | c :: rest => ch :: c :: blankResult ch rest

/-- `TTSTokenizer.intersperse_blank_char`: intersperses
`self.characters.blank` (when `use_blank_char`) or `self.characters.pad`
around and between the symbols of the sequence. -/
def TTSTokenizer.intersperse_blank_char (tk : TTSTokenizer) (seq : List Char)
    (use_blank_char : Bool) : List Char :=
  blankResult (if use_blank_char then tk.characters.blank else tk.characters.pad) seq

/-- `TTSTokenizer.text_to_ids`: clean (if a cleaner is set), phonemize (if
`use_phonemes`), intersperse blanks (if `add_blank`), pad with BOS/EOS (if
`use_eos_bos`), then encode. The interspersion and padding steps turn the
text into a Python list, so `encode` receives a list exactly when
`add_blank` or `use_eos_bos` is set, and a string otherwise. -/
def TTSTokenizer.text_to_ids (tk : TTSTokenizer) (text : List Char) :
    Option (List Nat) × TTSTokenizer :=
  let text1 := match tk.text_cleaner with
    | some cleaner => cleaner text
    | none => text
  let text2 := if tk.use_phonemes then tk.phonemizer text1 else text1
  if tk.add_blank then
    let text3 := tk.intersperse_blank_char text2 true
    if tk.use_eos_bos then tk.encode (.lst (tk.pad_with_bos_eos text3))
    else tk.encode (.lst text3)
  else
    if tk.use_eos_bos then tk.encode (.lst (tk.pad_with_bos_eos text2))
    else tk.encode (.str text2)

/-- `KO_KR_Phonemizer.is_available` (`ko_kr_phonemizer.py`): returns `True`
unconditionally; the backend needs no external resources. -/
def KO_KR_is_available : Bool := true

/-- `KO_KR_Phonemizer.supported_languages`. -/
def KO_KR_supported_languages : List (String × String) :=
  [("ko-kr", "hangeul(korean)")]

/-- A small concrete character set used by the concrete instances below. -/
def csDemo : CharacterSet :=
  { vocab := ['a', 'b', 'c', '_', '#', '<', '>'],
    pad := '_', blank := '#', bos := '<', eos := '>' }

/-- A concrete tokenizer over `csDemo` with every optional stage off. -/
def tkDemo : TTSTokenizer :=
  { use_phonemes := false, text_cleaner := none, characters := csDemo,
    phonemizer := id, add_blank := false, use_eos_bos := false,
    not_found_characters := [] }

/-- The same tokenizer with `add_blank` switched on. -/
def tkDemoBlank : TTSTokenizer := { tkDemo with add_blank := true }

/-- Pipeline stage 1 as the spec states it: clean, when a cleaner is set. -/
def specStageClean (tk : TTSTokenizer) (t : List Char) : List Char :=
  match tk.text_cleaner with
  | some cleaner => cleaner t
  | none => t

/-- Pipeline stage 2 as the spec states it: phonemize, when `use_phonemes`. -/
def specStagePhonemize (tk : TTSTokenizer) (t : List Char) : List Char :=
  if tk.use_phonemes then tk.phonemizer t else t

/-- Pipeline stage 3 as the spec states it: blank interspersion, when `add_blank`. -/
def specStageBlank (tk : TTSTokenizer) (t : List Char) : List Char :=
  if tk.add_blank then tk.intersperse_blank_char t true else t

/-- Pipeline stage 4 as the spec states it: BOS/EOS padding, when `use_eos_bos`. -/
def specStageEosBos (tk : TTSTokenizer) (t : List Char) : List Char :=
  if tk.use_eos_bos then tk.pad_with_bos_eos t else t

/-- The form in which the pipeline result reaches `encode`: a Python list
when interspersion or padding ran, a string otherwise. -/
def specEncodeArg (tk : TTSTokenizer) (t : List Char) : EncodeInput :=
  if tk.add_blank || tk.use_eos_bos then .lst t else .str t

lemma indexInList_mem {v : List Char} {c : Char} (h : c ∈ v) :
    ∃ i, indexInList v c = some i ∧ v[i]? = some c := by
  induction v with
  | nil => simp at h
  | cons a rest ih =>
    by_cases hac : a = c
    · exact ⟨0, by simp [indexInList, hac], by simp [hac]⟩
    · rcases List.mem_cons.mp h with h1 | h2
      · exact absurd h1.symm hac
      · rcases ih h2 with ⟨i, hi, hg⟩
        exact ⟨i + 1, by simp [indexInList, hac, hi], by simpa using hg⟩

lemma mem_regexpTokenize {v t : List Char} :
    ∀ c ∈ regexpTokenize v t, c ∈ v := by
  induction t with
  | nil => simp [regexpTokenize]
  | cons a rest ih =>
    intro c hc
    by_cases hav : a ∈ v
    · simp only [regexpTokenize, if_pos hav] at hc
      rcases List.mem_cons.mp hc with h1 | h2
      · exact h1 ▸ hav
      · exact ih c h2
    · simp only [regexpTokenize, if_neg hav] at hc
      exact ih c hc

lemma regexpTokenize_eq_self {v t : List Char} (h : ∀ c ∈ t, c ∈ v) :
    regexpTokenize v t = t := by
  induction t with
  | nil => rfl
  | cons a rest ih =>
    have ha : a ∈ v := h a (by simp)
    simp only [regexpTokenize, if_pos ha]
    exact congrArg _ (ih fun c hc => h c (by simp [hc]))

lemma encode_decode (tk : TTSTokenizer) (t : List Char)
    (h : ∀ c ∈ t, c ∈ tk.characters.vocab) :
    ∃ ids, idsOfSymbols tk.characters t = some ids ∧ tk.decode ids = some t := by
  induction t with
  | nil => exact ⟨[], rfl, rfl⟩
  | cons c rest ih =>
    rcases indexInList_mem (h c (by simp)) with ⟨i, hi, hg⟩
    rcases ih (fun d hd => h d (by simp [hd])) with ⟨ids, hids, hdec⟩
    refine ⟨i :: ids, ?_, ?_⟩
    · simp [idsOfSymbols, CharacterSet.char_to_id, hi, hids]
    · simp [TTSTokenizer.decode, CharacterSet.id_to_char, hg, hdec]

lemma log_nf_eq_append :
    ∀ (toks nf : List (List Char)),
      ∃ new, log_not_found_characters nf toks = nf ++ new ∧
        ∀ g ∈ new, g ∉ nf := by
  intro toks
  induction toks with
  | nil => exact fun nf => ⟨[], by simp [log_not_found_characters]⟩
  | cons ch rest ih =>
    intro nf
    by_cases hc : ch ∈ nf
    · rcases ih nf with ⟨new, hn, hp⟩
      exact ⟨new, by simp [log_not_found_characters, hc, hn], hp⟩
    · rcases ih (nf ++ [ch]) with ⟨new, hn, hp⟩
      refine ⟨ch :: new, ?_, ?_⟩
      · simp only [log_not_found_characters, if_neg hc]
        simp [hn]
      · intro g hg
        rcases List.mem_cons.mp hg with h1 | h2
        · exact h1 ▸ hc
        · intro hgnf
          exact hp g h2 (by simp [hgnf])

lemma mem_log_nf_left {nf : List (List Char)} (toks : List (List Char))
    {g : List Char} (h : g ∈ nf) : g ∈ log_not_found_characters nf toks := by
  rcases log_nf_eq_append toks nf with ⟨new, hn, _⟩
  simp [hn, h]

lemma mem_log_nf_of_mem_toks :
    ∀ (toks nf : List (List Char)) (g : List Char), g ∈ toks →
      g ∈ log_not_found_characters nf toks := by
  intro toks
  induction toks with
  | nil => simp
  | cons ch rest ih =>
    intro nf g hg
    rcases List.mem_cons.mp hg with h1 | h2
    · subst h1
      by_cases hc : g ∈ nf
      · simp only [log_not_found_characters, if_pos hc]
        exact mem_log_nf_left rest hc
      · simp only [log_not_found_characters, if_neg hc]
        exact mem_log_nf_left rest (by simp)
    · by_cases hc : ch ∈ nf
      · simp only [log_not_found_characters, if_pos hc]
        exact ih nf g h2
      · simp only [log_not_found_characters, if_neg hc]
        exact ih (nf ++ [ch]) g h2

lemma log_nf_nodup :
    ∀ (toks nf : List (List Char)), nf.Nodup →
      (log_not_found_characters nf toks).Nodup := by
  intro toks
  induction toks with
  | nil => exact fun nf h => h
  | cons ch rest ih =>
    intro nf hnf
    by_cases hc : ch ∈ nf
    · simp only [log_not_found_characters, if_pos hc]
      exact ih nf hnf
    · simp only [log_not_found_characters, if_neg hc]
      exact ih (nf ++ [ch]) (by simp [List.nodup_append, hnf, hc])

lemma text_to_ids_as_stages (tk : TTSTokenizer) (text : List Char) :
    tk.text_to_ids text =
      tk.encode (specEncodeArg tk (specStageEosBos tk (specStageBlank tk
        (specStagePhonemize tk (specStageClean tk text))))) := by
  unfold TTSTokenizer.text_to_ids specEncodeArg specStageEosBos specStageBlank
    specStagePhonemize specStageClean
  cases hb : tk.add_blank <;> cases he : tk.use_eos_bos <;> simp

lemma specStageClean_nf (tk : TTSTokenizer) (nf : List (List Char))
    (t : List Char) :
    specStageClean { tk with not_found_characters := nf } t = specStageClean tk t :=
  rfl

lemma specStagePhonemize_nf (tk : TTSTokenizer) (nf : List (List Char))
    (t : List Char) :
    specStagePhonemize { tk with not_found_characters := nf } t =
      specStagePhonemize tk t :=
  rfl

lemma specStageBlank_nf (tk : TTSTokenizer) (nf : List (List Char))
    (t : List Char) :
    specStageBlank { tk with not_found_characters := nf } t = specStageBlank tk t :=
  rfl

lemma specStageEosBos_nf (tk : TTSTokenizer) (nf : List (List Char))
    (t : List Char) :
    specStageEosBos { tk with not_found_characters := nf } t =
      specStageEosBos tk t :=
  rfl

lemma specEncodeArg_nf (tk : TTSTokenizer) (nf : List (List Char))
    (t : List Char) :
    specEncodeArg { tk with not_found_characters := nf } t = specEncodeArg tk t :=
  rfl

lemma encode_fst_nf (tk : TTSTokenizer) (nf : List (List Char))
    (inp : EncodeInput) :
    (TTSTokenizer.encode { tk with not_found_characters := nf } inp).1 =
      (tk.encode inp).1 := by
  cases inp <;> rfl

lemma encode_snd_frame (tk : TTSTokenizer) (inp : EncodeInput) :
    (tk.encode inp).2 =
      { tk with not_found_characters := (tk.encode inp).2.not_found_characters } := by
  cases inp <;> rfl

lemma text_to_ids_fst_nf (tk : TTSTokenizer) (nf : List (List Char))
    (text : List Char) :
    (TTSTokenizer.text_to_ids { tk with not_found_characters := nf } text).1 =
      (tk.text_to_ids text).1 := by
  rw [text_to_ids_as_stages, text_to_ids_as_stages, specStageClean_nf,
    specStagePhonemize_nf, specStageBlank_nf, specStageEosBos_nf, specEncodeArg_nf]
  exact encode_fst_nf tk nf _

lemma text_to_ids_snd_frame (tk : TTSTokenizer) (text : List Char) :
    (tk.text_to_ids text).2 =
      { tk with
        not_found_characters := (tk.text_to_ids text).2.not_found_characters } := by
  rw [text_to_ids_as_stages]
  exact encode_snd_frame tk _

lemma blankResult_length (b : Char) (s : List Char) :
    (blankResult b s).length = 2 * s.length + 1 := by
  induction s with
  | nil => rfl
  | cons c rest ih => simp [blankResult, ih]; omega

lemma blankResult_even (b : Char) :
    ∀ (s : List Char) (i : Nat), i ≤ s.length →
      (blankResult b s)[2 * i]? = some b := by
  intro s
  induction s with
  | nil =>
    intro i hi
    have h0 : i = 0 := Nat.le_zero.mp (by simpa using hi)
    subst h0
    rfl
  | cons c rest ih =>
    intro i hi
    cases i with
    | zero => simp [blankResult]
    | succ j =>
      have h2 : 2 * (j + 1) = (2 * j) + 1 + 1 := by omega
      rw [h2]
      simp only [blankResult, List.getElem?_cons_succ]
      exact ih j (by simpa using hi)

lemma blankResult_odd (b : Char) :
    ∀ (s : List Char) (i : Nat), i < s.length →
      (blankResult b s)[2 * i + 1]? = s[i]? := by
  intro s
  induction s with
  | nil => simp
  | cons c rest ih =>
    intro i hi
    cases i with
    | zero => simp [blankResult]
    | succ j =>
      have h2 : 2 * (j + 1) + 1 = (2 * j + 1) + 1 + 1 := by omega
      rw [h2]
      simp only [blankResult, List.getElem?_cons_succ]
      exact ih j (by simpa using hi)

lemma encode_str_isSome (tk : TTSTokenizer) (t : List Char) :
    ∃ ids, (tk.encode (.str t)).1 = some ids := by
  rcases encode_decode tk (regexpTokenize tk.characters.vocab t)
    (fun c hc => mem_regexpTokenize c hc) with ⟨ids, hi, _⟩
  exact ⟨ids, hi⟩

lemma encode_nf_append (tk : TTSTokenizer) (inp : EncodeInput) :
    ∃ new, (tk.encode inp).2.not_found_characters =
        tk.not_found_characters ++ new ∧
      ∀ g ∈ new, g ∉ tk.not_found_characters := by
  cases inp with
  | str t =>
    exact log_nf_eq_append (gapTokens tk.characters.vocab t) tk.not_found_characters
  | lst t => exact ⟨[], by simp only [List.append_nil]; rfl, by simp⟩

/-- C1: for every string composed only of symbols in the tokenizer's
vocabulary, `ids_to_text (encode text)` returns the original text. -/

theorem C1_roundtrip (tk : TTSTokenizer) (text : List Char)
    (h : ∀ c ∈ text, c ∈ tk.characters.vocab) :
    ∃ ids, (tk.encode (.str text)).1 = some ids ∧
      tk.ids_to_text ids = some text := by
  rcases encode_decode tk text h with ⟨ids, hi, hd⟩
  refine ⟨ids, ?_, hd⟩
  show idsOfSymbols tk.characters (regexpTokenize tk.characters.vocab text) = some ids
  rw [regexpTokenize_eq_self h]
  exact hi

theorem C1_roundtrip_witness :
    (∀ c ∈ (['a', 'b', 'c'] : List Char), c ∈ tkDemo.characters.vocab) ∧
    ∃ ids, (tkDemo.encode (.str ['a', 'b', 'c'])).1 = some ids ∧
      tkDemo.ids_to_text ids = some ['a', 'b', 'c'] :=
  ⟨by decide, C1_roundtrip tkDemo ['a', 'b', 'c'] (by decide)⟩

/-- C2, counterexample to the claim as stated: with `add_blank = true` the
pipeline hands `encode` a list containing the out-of-vocabulary character
`z` unfiltered, and `char_to_id` fails (the Python code raises). -/

theorem C2_counterexample : (tkDemoBlank.text_to_ids ['z']).1 = none := rfl

/-- C2 amended: when `add_blank` and `use_eos_bos` are both false — so that
`encode` receives a string and tokenizes it against the vocabulary — the
final encode step of `text_to_ids` never fails. -/

theorem C2_encode_total_on_str (tk : TTSTokenizer) (text : List Char)
    (hb : tk.add_blank = false) (he : tk.use_eos_bos = false) :
    ∃ ids, (tk.text_to_ids text).1 = some ids := by
  rw [text_to_ids_as_stages]
  simp only [specEncodeArg, hb, he, Bool.or_self, Bool.false_eq_true, if_false]
  exact encode_str_isSome tk _

theorem C2_encode_total_on_str_witness :
    tkDemo.add_blank = false ∧ tkDemo.use_eos_bos = false ∧
    ∃ ids, (tkDemo.text_to_ids ['a', 'z']).1 = some ids :=
  ⟨rfl, rfl, C2_encode_total_on_str tkDemo ['a', 'z'] rfl rfl⟩

/-- C3, counterexample to the claim as stated: the gap tokenizer extracts
maximal runs of out-of-vocabulary characters, so on input `azza` the two
adjacent occurrences of `z` are logged as the single entry `zz`, and the
dropped symbol `z` itself never appears in `not_found_characters`. -/

theorem C3_counterexample :
    'z' ∉ csDemo.vocab ∧ 'z' ∈ (['a', 'z', 'z', 'a'] : List Char) ∧
    (tkDemo.encode (.str ['a', 'z', 'z', 'a'])).2.not_found_characters = [['z', 'z']] ∧
    ['z'] ∉ (tkDemo.encode (.str ['a', 'z', 'z', 'a'])).2.not_found_characters := by
  refine ⟨by decide, by decide, rfl, ?_⟩
  rw [show (tkDemo.encode (.str ['a', 'z', 'z', 'a'])).2.not_found_characters
      = [['z', 'z']] from rfl]
  decide

/-- C3 amended: encoding drops exactly the out-of-vocabulary symbols (the
IDs decode back to the vocabulary-only subsequence of the input), and each
maximal run of consecutive out-of-vocabulary characters — the unit the gap
tokenizer extracts — is recorded at least once in `not_found_characters`,
with no duplicate entries. -/

theorem C3_lossy_roundtrip (tk : TTSTokenizer) (text : List Char)
    (hnf : tk.not_found_characters.Nodup) :
    (∃ ids, (tk.encode (.str text)).1 = some ids ∧
        tk.ids_to_text ids = some (regexpTokenize tk.characters.vocab text)) ∧
    (∀ g ∈ gapTokens tk.characters.vocab text,
        g ∈ (tk.encode (.str text)).2.not_found_characters) ∧
    ((tk.encode (.str text)).2.not_found_characters).Nodup := by
  refine ⟨?_, ?_, ?_⟩
  · rcases encode_decode tk (regexpTokenize tk.characters.vocab text)
      (fun c hc => mem_regexpTokenize c hc) with ⟨ids, hi, hd⟩
    exact ⟨ids, hi, hd⟩
  · intro g hg
    exact mem_log_nf_of_mem_toks _ tk.not_found_characters g hg
  · exact log_nf_nodup _ tk.not_found_characters hnf

theorem C3_lossy_roundtrip_witness :
    tkDemo.not_found_characters.Nodup ∧
    ((∃ ids, (tkDemo.encode (.str ['a', 'z', 'b', 'z'])).1 = some ids ∧
        tkDemo.ids_to_text ids =
          some (regexpTokenize tkDemo.characters.vocab ['a', 'z', 'b', 'z'])) ∧
    (∀ g ∈ gapTokens tkDemo.characters.vocab ['a', 'z', 'b', 'z'],
        g ∈ (tkDemo.encode (.str ['a', 'z', 'b', 'z'])).2.not_found_characters) ∧
    ((tkDemo.encode (.str ['a', 'z', 'b', 'z'])).2.not_found_characters).Nodup) :=
  ⟨by decide, C3_lossy_roundtrip tkDemo ['a', 'z', 'b', 'z'] (by decide)⟩

/-- C4: `intersperse_blank_char` with `use_blank_char = true` returns a
sequence of length `2n+1` with the blank symbol at every even index and the
original symbols in order at the odd indices. -/

theorem C4_blank_interspersion (tk : TTSTokenizer) (seq : List Char) :
    (tk.intersperse_blank_char seq true).length = 2 * seq.length + 1 ∧
    (∀ i, i ≤ seq.length →
      (tk.intersperse_blank_char seq true)[2 * i]? = some tk.characters.blank) ∧
    (∀ i, i < seq.length →
      (tk.intersperse_blank_char seq true)[2 * i + 1]? = seq[i]?) := by
  unfold TTSTokenizer.intersperse_blank_char
  simp only [if_true]
  exact ⟨blankResult_length _ _, fun i hi => blankResult_even _ _ i hi,
    fun i hi => blankResult_odd _ _ i hi⟩

theorem C4_blank_interspersion_witness :
    (tkDemo.intersperse_blank_char ['a', 'b', 'c'] true)[2 * 1]? =
        some tkDemo.characters.blank ∧
    (tkDemo.intersperse_blank_char ['a', 'b', 'c'] true)[2 * 1 + 1]? =
        (['a', 'b', 'c'] : List Char)[1]? :=
  ⟨(C4_blank_interspersion tkDemo ['a', 'b', 'c']).2.1 1 (by decide),
   (C4_blank_interspersion tkDemo ['a', 'b', 'c']).2.2 1 (by decide)⟩

/-- C5: `pad_with_bos_eos seq` has length `len(seq) + 2`, starts with the
`bos` symbol, ends with the `eos` symbol, and its middle slice is `seq`. -/

theorem C5_pad_bos_eos (tk : TTSTokenizer) (seq : List Char) :
    (tk.pad_with_bos_eos seq).length = seq.length + 2 ∧
    (tk.pad_with_bos_eos seq).head? = some tk.characters.bos ∧
    (tk.pad_with_bos_eos seq).getLast? = some tk.characters.eos ∧
    ((tk.pad_with_bos_eos seq).drop 1).dropLast = seq := by
  unfold TTSTokenizer.pad_with_bos_eos
  refine ⟨by simp, by simp, List.getLast?_concat _, ?_⟩
  simp [List.dropLast_concat]

/-- C6: `text_to_ids` is exactly the composition, in this order, of the
optional clean, phonemize, blank-interspersion and BOS/EOS stages followed
by the (always-run) encode, each stage running at most once. -/

theorem C6_pipeline_order (tk : TTSTokenizer) (text : List Char) :
    tk.text_to_ids text =
      tk.encode (specEncodeArg tk (specStageEosBos tk (specStageBlank tk
        (specStagePhonemize tk (specStageClean tk text))))) :=
  text_to_ids_as_stages tk text

/-- C7: the ID sequence produced by `text_to_ids` does not depend on the
accumulated `not_found_characters` state, and in particular a second call
with the identical input yields the identical ID sequence. -/

theorem C7_determinism (tk : TTSTokenizer) (nf : List (List Char))
    (text : List Char) :
    (TTSTokenizer.text_to_ids { tk with not_found_characters := nf } text).1 =
      (tk.text_to_ids text).1 ∧
    ((tk.text_to_ids text).2.text_to_ids text).1 = (tk.text_to_ids text).1 := by
  refine ⟨text_to_ids_fst_nf tk nf text, ?_⟩
  rw [text_to_ids_snd_frame]
  exact text_to_ids_fst_nf tk _ text

/-- C8: every `encode` / `text_to_ids` call only appends to
`not_found_characters` — the existing entries and their order are kept and
each appended entry was absent — and `not_found_characters` is the only
field of the tokenizer state that changes. -/

theorem C8_nf_monotone (tk : TTSTokenizer) (inp : EncodeInput)
    (text : List Char) :
    (∃ new, (tk.encode inp).2.not_found_characters =
        tk.not_found_characters ++ new ∧
      ∀ g ∈ new, g ∉ tk.not_found_characters) ∧
    (tk.encode inp).2 =
      { tk with not_found_characters := (tk.encode inp).2.not_found_characters } ∧
    (∃ new, (tk.text_to_ids text).2.not_found_characters =
        tk.not_found_characters ++ new ∧
      ∀ g ∈ new, g ∉ tk.not_found_characters) ∧
    (tk.text_to_ids text).2 =
      { tk with
        not_found_characters := (tk.text_to_ids text).2.not_found_characters } := by
  refine ⟨encode_nf_append tk inp, encode_snd_frame tk inp, ?_,
    text_to_ids_snd_frame tk text⟩
  rw [text_to_ids_as_stages]
  exact encode_nf_append tk _

theorem C8_nf_monotone_witness :
    (∃ new, (tkDemo.encode (.str ['a', 'z'])).2.not_found_characters =
        tkDemo.not_found_characters ++ new ∧
      ∀ g ∈ new, g ∉ tkDemo.not_found_characters) ∧
    (tkDemo.encode (.str ['a', 'z'])).2 =
      { tkDemo with
        not_found_characters :=
          (tkDemo.encode (.str ['a', 'z'])).2.not_found_characters } ∧
    (∃ new, (tkDemo.text_to_ids ['a', 'z']).2.not_found_characters =
        tkDemo.not_found_characters ++ new ∧
      ∀ g ∈ new, g ∉ tkDemo.not_found_characters) ∧
    (tkDemo.text_to_ids ['a', 'z']).2 =
      { tkDemo with
        not_found_characters :=
          (tkDemo.text_to_ids ['a', 'z']).2.not_found_characters } :=
  C8_nf_monotone tkDemo (.str ['a', 'z']) ['a', 'z']

/-- C9: `KO_KR_Phonemizer.is_available` returns the boolean `True`
unconditionally (it needs no external resources), so it never raises. -/

theorem C9_ko_kr_is_available : KO_KR_is_available = true := rfl

/-- C10: when `encode` is called with a list — which is what every
`text_to_ids` call with `add_blank` or `use_eos_bos` does — no
out-of-vocabulary detection happens: the tokenizer state (in particular
`not_found_characters`) is unchanged and `char_to_id` is applied to every
element of the list without filtering. -/

theorem C10_list_bypasses_oov (tk : TTSTokenizer) (l : List Char)
    (text : List Char) :
    (tk.encode (.lst l)).2 = tk ∧
    (tk.encode (.lst l)).1 = idsOfSymbols tk.characters l ∧
    ((tk.add_blank || tk.use_eos_bos) = true → (tk.text_to_ids text).2 = tk) := by
  refine ⟨rfl, rfl, ?_⟩
  intro h
  rw [text_to_ids_as_stages]
  simp only [specEncodeArg, h, if_true]
  rfl

theorem C10_list_bypasses_oov_witness :
    (tkDemoBlank.encode (.lst ['a'])).2 = tkDemoBlank ∧
    (tkDemoBlank.encode (.lst ['a'])).1 = idsOfSymbols tkDemoBlank.characters ['a'] ∧
    (tkDemoBlank.text_to_ids ['a', 'z']).2 = tkDemoBlank :=
  ⟨(C10_list_bypasses_oov tkDemoBlank ['a'] ['a', 'z']).1,
   (C10_list_bypasses_oov tkDemoBlank ['a'] ['a', 'z']).2.1,
   (C10_list_bypasses_oov tkDemoBlank ['a'] ['a', 'z']).2.2 rfl⟩

end CoquiTTS
